import Mathlib

/-!
Shallow embedding of the sales-dashboard pipeline (`src/app.py`).

The dashboard loads a tabular dataset, infers column roles by substring
matching on column names, filters rows by a chosen categorical column,
computes summary metrics, and builds grouped aggregates for charts.

Cells model pandas scalars: `na` is NaN/NaT, `num` an (exact) numeric
value, `str` a text value, `date` a parsed timestamp.  Numeric values are
embedded as `Int` (exact arithmetic standing for the numeric column
contents); pandas `sum` skips NaN, which `amtVal` models by mapping
non-numeric cells to `0`.
-/

inductive Cell where
  | na : Cell
  | num : Int → Cell
  | str : String → Cell
  | date : Int → Cell
deriving DecidableEq, Repr

/-- A loaded table: a fixed list of column names and rows of cells
(each row aligned positionally with `cols`).  Models the pandas
DataFrame produced by the load stage of `app.py`. -/
structure Table where
  cols : List String
  rows : List (List Cell)
deriving DecidableEq, Repr

/-- Look up the cell of row `r` in column `c` (positional lookup through
the column-name list, `df[c]` for one row).  Out-of-table columns read
as missing. -/
def getCell (cols : List String) (r : List Cell) (c : String) : Cell :=
  match cols.findIdx? (fun x => x = c) with
  | some i => r.getD i Cell.na
  | none => Cell.na

/-- Substring test on character lists (`needle` occurs contiguously in
the haystack), used for the `'kw' in col.lower()` checks of `app.py`. -/
def prefixMatch : List Char → List Char → Bool
  | [], _ => true
  | _ :: _, [] => false
  | a :: as, b :: bs => a == b && prefixMatch as bs

def subMatch (needle : List Char) : List Char → Bool
  | [] => prefixMatch needle []
  | b :: rest => prefixMatch needle (b :: rest) || subMatch needle rest

/-- `kw in c.lower()` from `app.py` (keywords are written lowercase). -/
def nameHas (c : String) (kw : String) : Bool :=
  subMatch kw.data (c.data.map Char.toLower)

/-- Column-name predicate for the amount role
(`'sales' in col.lower() or 'revenue' in col.lower() or 'amount' in col.lower()`,
`app.py` line 122). -/
def isAmountName (c : String) : Bool :=
  nameHas c "sales" || nameHas c "revenue" || nameHas c "amount"

/-- Column-name predicate for the category role
(`'product' in col.lower() or 'category' in col.lower() or 'item' in col.lower()`,
`app.py` line 145). -/
def isCategoryName (c : String) : Bool :=
  nameHas c "product" || nameHas c "category" || nameHas c "item"

/-- Column-name predicate for the date role (`'date' in col.lower()`,
`app.py` line 84). -/
def isDateName (c : String) : Bool :=
  nameHas c "date"

/-- `sales_col`: first column whose name matches the amount keywords
(the `for col in df.columns: ... break` loop, `app.py` lines 120-124). -/
def findSalesCol (cols : List String) : Option String :=
  cols.find? isAmountName

/-- `product_col`: first column whose name matches the category keywords
(`app.py` lines 143-147). -/
def findProductCol (cols : List String) : Option String :=
  cols.find? isCategoryName

/-- `date_columns`: all columns whose name contains `date`
(`app.py` line 84). -/
def dateColumns (cols : List String) : List String :=
  cols.filter isDateName

/-- The date column actually used: `date_columns[0]` when nonempty. -/
def findDateCol (cols : List String) : Option String :=
  (dateColumns cols).head?

/-- The three role assignments (date, amount, category) derived from a
Table; a pure function of the column-name list. -/
def schemaInference (t : Table) : Option String × Option String × Option String :=
  (findDateCol t.cols, findSalesCol t.cols, findProductCol t.cols)

/-- `pd.to_datetime(df[date_columns[0]], errors='coerce')` (`app.py`
line 86): every value of the first date column is re-parsed by the
external date parser `parse`; values the parser rejects become the
missing marker `na` instead of raising. -/
def setCell (cols : List String) (r : List Cell) (c : String) (v : Cell) : List Cell :=
  match cols.findIdx? (fun x => x = c) with
  | some i => r.set i v
  | none => r

def coerceCell (parse : String → Option Int) : Cell → Cell
  | Cell.str s =>
    match parse s with
    | some d => Cell.date d
    | none => Cell.na
  | Cell.date d => Cell.date d
  | _ => Cell.na

def coerceDates (parse : String → Option Int) (t : Table) : Table :=
  match findDateCol t.cols with
  | none => t
  | some dc =>
    ⟨t.cols, t.rows.map (fun r => setCell t.cols r dc (coerceCell parse (getCell t.cols r dc)))⟩

/-- `df[df[filter_col].isin(selected_values)]` (`app.py` line 107):
keep exactly the rows whose value in column `c` is a member of the
permitted list (pandas `isin` also matches NaN against NaN, which plain
cell equality models). -/
def filterTable (t : Table) (c : String) (allowed : List Cell) : Table :=
  ⟨t.cols, t.rows.filter (fun r => decide (getCell t.cols r c ∈ allowed))⟩

/-- The optional filter stage: `filter_col != "None"` chooses a column
and a permitted-value list; `"None"` leaves the table untouched
(`app.py` lines 99-107). -/
def filterStage (t : Table) (sel : Option (String × List Cell)) : Table :=
  match sel with
  | none => t
  | some (c, vs) => filterTable t c vs

/-- First-occurrence deduplication, `df[col].unique()` order included. -/
def uniqAux : List Cell → List Cell → List Cell
  | _, [] => []
  | seen, x :: xs =>
    if x ∈ seen then uniqAux seen xs else x :: uniqAux (x :: seen) xs

def uniqueCells (l : List Cell) : List Cell :=
  uniqAux [] l

/-- `df[filter_col].unique()` (`app.py` line 101): the observed distinct
values of a column, first occurrence first, missing values included. -/
def uniqueValues (t : Table) (c : String) : List Cell :=
  uniqueCells (t.rows.map (fun r => getCell t.cols r c))

/-- Numeric reading of a cell under pandas `sum`/`mean`: NaN (and any
non-numeric cell) contributes nothing. -/
def amtVal : Cell → Int
  | Cell.num n => n
  | _ => 0

/-- `df[sales_col].sum()` (`app.py` line 130). -/
def sumCol (t : Table) (c : String) : Int :=
  (t.rows.map (fun r => amtVal (getCell t.cols r c))).sum

/-- `df[sales_col].mean()` (`app.py` line 134): sum of the non-missing
numeric values over their count (`Rat` division by a zero count stands
for the NaN pandas produces on an empty column). -/
def meanCol (t : Table) (c : String) : Rat :=
  let vals := t.rows.filterMap (fun r =>
    match getCell t.cols r c with
    | Cell.num n => some n
    | _ => none)
  ((vals.sum : Int) : Rat) / (vals.length : Rat)

/-- `df[product_col].nunique()` (`app.py` line 149): distinct non-missing
values of the category column. -/
def nuniqueCol (t : Table) (c : String) : Nat :=
  (uniqueCells ((t.rows.map (fun r => getCell t.cols r c)).filter
    (fun x => decide (x ≠ Cell.na)))).length

/-- Output of the Key Metrics block (`app.py` lines 126-150): each field
is `none` when the corresponding `st.metric` call is not reached. -/
structure MetricsOut where
  totalSales : Option Int
  avgSales : Option Rat
  totalTransactions : Option Nat
  uniqueProducts : Option Nat
deriving DecidableEq, Repr

/-- The metrics stage.  In `app.py` the whole four-column metrics block,
`total_transactions` included, sits under `if sales_col:`; only the
unique-products metric is further guarded by `if product_col:`. -/
def metricsStage (t : Table) : MetricsOut :=
  match findSalesCol t.cols with
  | none => ⟨none, none, none, none⟩
  | some sc =>
    { totalSales := some (sumCol t sc)
      avgSales := some (meanCol t sc)
      totalTransactions := some t.rows.length
      uniqueProducts := (findProductCol t.cols).map (fun pc => nuniqueCol t pc) }

/-- Lexicographic comparison of strings by code point (the order pandas
sorts string group keys in). -/
def charListLeb : List Char → List Char → Bool
  | [], _ => true
  | _ :: _, [] => false
  | a :: as, b :: bs =>
    if a < b then true else if b < a then false else charListLeb as bs

/-- Total order on cells used to model the key-sorted output order of
pandas `groupby` (ascending group keys; distinct keys in practice are
uniformly typed, where this order agrees with pandas). -/
def cellLeb : Cell → Cell → Bool
  | Cell.na, _ => true
  | _, Cell.na => false
  | Cell.num m, Cell.num n => m ≤ n
  | Cell.num _, _ => true
  | _, Cell.num _ => false
  | Cell.date d, Cell.date e => d ≤ e
  | Cell.date _, _ => true
  | _, Cell.date _ => false
  | Cell.str s, Cell.str t => charListLeb s.data t.data

def cellLe (a b : Cell) : Prop := cellLeb a b = true

instance : DecidableRel cellLe :=
  fun a b => inferInstanceAs (Decidable (cellLeb a b = true))

def sortKeys (l : List Cell) : List Cell :=
  List.insertionSort cellLe l

/-- Total of the value column `vc` over the rows whose key column `kc`
holds exactly `k` (one group of a pandas `groupby(kc)[vc].sum()`). -/
def rowsGroupTotal (cols : List String) (kc vc : String) (rows : List (List Cell)) (k : Cell) : Int :=
  ((rows.filter (fun r => decide (getCell cols r kc = k))).map
    (fun r => amtVal (getCell cols r vc))).sum

/-- `df.groupby(kc)[vc].sum()` (`app.py` lines 163, 178, 213, 221):
one `(group key, total)` pair per distinct non-missing key, keys in
ascending order (pandas `groupby` drops NaN keys and sorts the keys). -/
def groupBySum (t : Table) (kc vc : String) : List (Cell × Int) :=
  (sortKeys (uniqueCells ((t.rows.map (fun r => getCell t.cols r kc)).filter
    (fun x => decide (x ≠ Cell.na))))).map
    (fun k => (k, rowsGroupTotal t.cols kc vc t.rows k))

/-- Descending-by-total comparison used by
`.sort_values(ascending=False)`. -/
def bySumDesc (a b : Cell × Int) : Prop := b.2 ≤ a.2

instance : DecidableRel bySumDesc :=
  fun a b => inferInstanceAs (Decidable (b.2 ≤ a.2))

instance : IsTotal (Cell × Int) bySumDesc :=
  ⟨fun a b => le_total b.2 a.2⟩

instance : IsTrans (Cell × Int) bySumDesc :=
  ⟨fun _ _ _ h1 h2 => le_trans h2 h1⟩

def sortDescBySum (l : List (Cell × Int)) : List (Cell × Int) :=
  List.insertionSort bySumDesc l

/-- `trend_df` (`app.py` line 163): group by the date column, sum the
amount column. -/
def trendDf (t : Table) (dc sc : String) : List (Cell × Int) :=
  groupBySum t dc sc

/-- `product_sales` (`app.py` line 178): group by category, sum amount,
sort descending by total, keep the first `n` rows. -/
def productSales (t : Table) (pc sc : String) (n : Nat) : List (Cell × Int) :=
  (sortDescBySum (groupBySum t pc sc)).take n

/-- `pie_data` (`app.py` line 213): sort descending by total, then
truncate to 8. -/
def pieData (t : Table) (pc sc : String) : List (Cell × Int) :=
  (sortDescBySum (groupBySum t pc sc)).take 8

/-- `treemap_data` (`app.py` line 221): truncate the grouped result to
its first 10 entries without any value sort. -/
def treemapData (t : Table) (pc sc : String) : List (Cell × Int) :=
  (groupBySum t pc sc).take 10

/-- The top-N slider `st.slider("Show top N products:", 5, 20, 10)`
(`app.py` line 176): the widget can only yield values in `[5, 20]`,
default 10; modelled as the clamp of the requested value. -/
def topNClamp (n : Nat) : Nat :=
  max 5 (min 20 n)

def topNDefault : Nat := 10

/-- One line per row of `df.to_csv(index=False)` (`app.py` line 249):
header line followed by the rendered rows. -/
def renderCell : Cell → String
  | Cell.na => ""
  | Cell.num n => toString n
  | Cell.str s => s
  | Cell.date d => toString d

def exportCsv (t : Table) : List String :=
  (String.intercalate "," t.cols) :: t.rows.map (fun r => String.intercalate "," (r.map renderCell))

/-- Failure kinds of the acquisition stage (spec section 7): missing
identifier, download failure, parse failure. -/
inductive LoadError where
  | missingIdentifier : LoadError
  | downloadError : String → LoadError
deriving DecidableEq, Repr

/-- The remote-load branch (`app.py` lines 67-79): `if file_id:` guards
the whole download, so an empty identifier string short-circuits to the
missing-identifier warning before any network activity.  The external
downloader (`gdown` + CSV parse) is the oracle `net`; the second
component counts network calls attempted. -/
def remoteLoad (net : String → Except String Table) (fileId : String) :
    Except LoadError Table × Nat :=
  if fileId = "" then (Except.error LoadError.missingIdentifier, 0)
  else
    match net fileId with
    | Except.ok t => (Except.ok t, 1)
    | Except.error m => (Except.error (LoadError.downloadError m), 1)

/-- The chart/export payloads produced by one full render of the main
block (`app.py` lines 115-267) when it completes; a field is `none`
when its prerequisite columns are absent and the chart is replaced by
an informational placeholder. -/
structure RenderOut where
  metrics : MetricsOut
  trend : Option (List (Cell × Int))
  topn : Option (List (Cell × Int))
  pie : Option (List (Cell × Int))
  treemap : Option (List (Cell × Int))
  csvLines : List String
deriving Repr

/-- One render of the metrics + visualization + export pipeline on the
(already filtered) table.  In `app.py` the name `product_col` is only
bound inside `if sales_col:` (line 143), yet line 173 reads
`if product_col and sales_col:` unconditionally; so when no column
matches the amount keywords the render raises `NameError` there and the
interaction aborts before the remaining charts and the export run
(the trend chart of lines 159-170 has rendered by then, but the stage
as a whole errors).  With an amount column present, `product_col` is
bound and every downstream stage completes. -/
def renderDashboard (t : Table) (n : Nat) : Except String RenderOut :=
  match findSalesCol t.cols with
  | none => Except.error "NameError: name product_col is not defined"
  | some sc =>
    Except.ok
      { metrics := metricsStage t
        trend := (findDateCol t.cols).map (fun dc => trendDf t dc sc)
        topn := (findProductCol t.cols).map (fun pc => productSales t pc sc (topNClamp n))
        pie := (findProductCol t.cols).map (fun pc => pieData t pc sc)
        treemap := (findProductCol t.cols).map (fun pc => treemapData t pc sc)
        csvLines := exportCsv t }

/-! ### Concrete tables used as witnesses and counterexamples -/

/-- A table whose column names match none of the amount keywords. -/
def noAmountTable : Table :=
  ⟨["Qty", "Region"], [[Cell.num 3, Cell.str "North"]]⟩

/-- A table with amount and category columns in which the single row has
a missing category value. -/
def naCategoryTable : Table :=
  ⟨["Product", "Sales"], [[Cell.na, Cell.num 5]]⟩

/-- A small well-formed sales table (two categories, three rows). -/
def wTable : Table :=
  ⟨["Product", "Sales"],
   [[Cell.str "A", Cell.num 5], [Cell.str "B", Cell.num 3], [Cell.str "A", Cell.num 2]]⟩

/-- A second table with the same column names as `wTable` but different
rows (schema inference must agree on the two). -/
def wTableOtherRows : Table :=
  ⟨["Product", "Sales"], [[Cell.str "Z", Cell.num 9]]⟩

/-- A date parser oracle accepting exactly one date literal, standing for
the external `pd.to_datetime` parser. -/
def exParse (s : String) : Option Int :=
  if s = "2024-01-01" then some 20240101 else none

/-- A table whose date column holds one parseable and one unparseable
value; after coercion the second row's date is missing. -/
def rawDateTable : Table :=
  ⟨["Date", "Sales"], [[Cell.str "2024-01-01", Cell.num 100], [Cell.str "bad-date", Cell.num 50]]⟩

def coercedDateTable : Table :=
  coerceDates exParse rawDateTable

/-! ### Helper lemmas -/

theorem mem_uniqAux (a : Cell) : ∀ (seen l : List Cell),
    a ∈ uniqAux seen l ↔ a ∈ l ∧ a ∉ seen := by
  intro seen l
  induction l generalizing seen with
  | nil => simp [uniqAux]
  | cons x xs ih =>
    by_cases hx : x ∈ seen
    · simp only [uniqAux, if_pos hx, ih]
      constructor
      · rintro ⟨h1, h2⟩
        exact ⟨List.mem_cons_of_mem _ h1, h2⟩
      · rintro ⟨h1, h2⟩
        rcases List.mem_cons.mp h1 with rfl | h1
        · exact absurd hx h2
        · exact ⟨h1, h2⟩
    · simp only [uniqAux, if_neg hx, List.mem_cons, ih]
      constructor
      · rintro (rfl | ⟨h1, h2⟩)
        · exact ⟨Or.inl rfl, hx⟩
        · exact ⟨Or.inr h1, fun hs => h2 (Or.inr hs)⟩
      · rintro ⟨rfl | h1, h2⟩
        · exact Or.inl rfl
        · by_cases hax : a = x
          · exact Or.inl hax
          · exact Or.inr ⟨h1, fun hs => hs.elim hax h2⟩

theorem mem_uniqueCells {a : Cell} {l : List Cell} : a ∈ uniqueCells l ↔ a ∈ l := by
  simp [uniqueCells, mem_uniqAux]

theorem nodup_uniqAux : ∀ (seen l : List Cell), (uniqAux seen l).Nodup := by
  intro seen l
  induction l generalizing seen with
  | nil => simp [uniqAux]
  | cons x xs ih =>
    by_cases hx : x ∈ seen
    · simpa [uniqAux, if_pos hx] using ih seen
    · simp only [uniqAux, if_neg hx]
      refine List.Nodup.cons ?_ (ih (x :: seen))
      intro hmem
      exact ((mem_uniqAux x (x :: seen) xs).mp hmem).2 (List.mem_cons_self x seen)

theorem nodup_uniqueCells (l : List Cell) : (uniqueCells l).Nodup :=
  nodup_uniqAux [] l

/-- First-match characterization of `List.find?`: a hit is a matching
element all of whose predecessors fail the predicate. -/
theorem find?_first {α : Type} (p : α → Bool) :
    ∀ (l : List α) (c : α), l.find? p = some c →
      p c = true ∧ ∃ l1 l2, l = l1 ++ c :: l2 ∧ ∀ x ∈ l1, p x = false := by
  intro l
  induction l with
  | nil => intro c h; simp [List.find?] at h
  | cons a as ih =>
    intro c h
    by_cases ha : p a = true
    · rw [List.find?_cons_of_pos _ ha] at h
      cases h
      exact ⟨ha, [], as, rfl, by simp⟩
    · have ha' : p a = false := Bool.eq_false_iff.mpr ha
      rw [List.find?_cons_of_neg _ ha] at h
      obtain ⟨hc, l1, l2, rfl, hl1⟩ := ih c h
      refine ⟨hc, a :: l1, l2, rfl, ?_⟩
      intro x hx
      rcases List.mem_cons.mp hx with rfl | hx
      · exact ha'
      · exact hl1 x hx

theorem head?_filter {α : Type} (p : α → Bool) :
    ∀ l : List α, (l.filter p).head? = l.find? p := by
  intro l
  induction l with
  | nil => rfl
  | cons a as ih =>
    by_cases ha : p a = true
    · simp [List.filter_cons, ha, List.find?_cons_of_pos _ ha]
    · have ha' : p a = false := Bool.eq_false_iff.mpr ha
      simp [List.filter_cons, ha', List.find?_cons_of_neg _ ha, ih]

theorem sum_map_zero {α : Type} (l : List α) : (l.map (fun _ => (0 : Int))).sum = 0 := by
  induction l with
  | nil => rfl
  | cons a as ih => simp [ih]

theorem sum_map_add {α : Type} (f g : α → Int) (l : List α) :
    (l.map (fun x => f x + g x)).sum = (l.map f).sum + (l.map g).sum := by
  induction l with
  | nil => rfl
  | cons a as ih => simp [ih]; ring

/-- Over a duplicate-free key list that contains `k0`, a function that
vanishes away from `k0` sums to its value at `k0`. -/
theorem sum_map_single (f : Cell → Int) :
    ∀ (ks : List Cell) (k0 : Cell), ks.Nodup → k0 ∈ ks →
      (∀ k ∈ ks, k ≠ k0 → f k = 0) → (ks.map f).sum = f k0 := by
  intro ks
  induction ks with
  | nil => intro k0 _ h; simp at h
  | cons a as ih =>
    intro k0 hnd hmem hz
    rcases List.mem_cons.mp hmem with rfl | hmem
    · have : ∀ k ∈ as, f k = 0 := by
        intro k hk
        exact hz k (List.mem_cons_of_mem _ hk)
          (fun hkk => (List.nodup_cons.mp hnd).1 (hkk ▸ hk))
      have hsum : (as.map f).sum = 0 := by
        calc (as.map f).sum = (as.map (fun _ => (0 : Int))).sum := by
              apply congrArg
              exact List.map_congr_left this
          _ = 0 := sum_map_zero as
      simp [hsum]
    · have ha0 : f a = 0 :=
        hz a (List.mem_cons_self a as)
          (fun haa => (List.nodup_cons.mp hnd).1 (haa ▸ hmem))
      have := ih k0 (List.nodup_cons.mp hnd).2 hmem
        (fun k hk hkk => hz k (List.mem_cons_of_mem _ hk) hkk)
      simp [ha0, this]

theorem rowsGroupTotal_cons (cols : List String) (kc vc : String)
    (r : List Cell) (rs : List (List Cell)) (k : Cell) :
    rowsGroupTotal cols kc vc (r :: rs) k =
      (if getCell cols r kc = k then amtVal (getCell cols r vc) else 0) +
        rowsGroupTotal cols kc vc rs k := by
  unfold rowsGroupTotal
  rw [List.filter_cons]
  by_cases h : getCell cols r kc = k
  · simp [h]
  · simp [h]

/-- Partition-of-a-sum: summing the per-key group totals over a
duplicate-free key list covering every row's key gives the plain sum of
the value column over the rows. -/
theorem sum_groupTotals (cols : List String) (kc vc : String) (ks : List Cell)
    (hnd : ks.Nodup) :
    ∀ rows : List (List Cell), (∀ r ∈ rows, getCell cols r kc ∈ ks) →
      (ks.map (fun k => rowsGroupTotal cols kc vc rows k)).sum =
        (rows.map (fun r => amtVal (getCell cols r vc))).sum := by
  intro rows
  induction rows with
  | nil =>
    intro _
    have h0 : ∀ k ∈ ks, rowsGroupTotal cols kc vc [] k = 0 := by
      intro k _; rfl
    calc (ks.map (fun k => rowsGroupTotal cols kc vc [] k)).sum
        = (ks.map (fun _ => (0 : Int))).sum := by
          exact congrArg _ (List.map_congr_left h0)
      _ = 0 := sum_map_zero ks
      _ = (([] : List (List Cell)).map (fun r => amtVal (getCell cols r vc))).sum := rfl
  | cons r rs ih =>
    intro hall
    have hr : getCell cols r kc ∈ ks := hall r (List.mem_cons_self r rs)
    have hrs : ∀ x ∈ rs, getCell cols x kc ∈ ks :=
      fun x hx => hall x (List.mem_cons_of_mem _ hx)
    have step : (ks.map (fun k => rowsGroupTotal cols kc vc (r :: rs) k)).sum =
        (ks.map (fun k =>
          (if getCell cols r kc = k then amtVal (getCell cols r vc) else 0) +
            rowsGroupTotal cols kc vc rs k)).sum := by
      exact congrArg _ (List.map_congr_left (fun k _ => rowsGroupTotal_cons cols kc vc r rs k))
    rw [step, sum_map_add]
    have single : (ks.map (fun k =>
        if getCell cols r kc = k then amtVal (getCell cols r vc) else 0)).sum =
          amtVal (getCell cols r vc) := by
      have := sum_map_single
        (fun k => if getCell cols r kc = k then amtVal (getCell cols r vc) else 0)
        ks (getCell cols r kc) hnd hr
        (fun k _ hkk => if_neg (fun h => hkk h.symm))
      simpa using this
    rw [single, ih hrs]
    simp

theorem mem_sortKeys {a : Cell} {l : List Cell} : a ∈ sortKeys l ↔ a ∈ l :=
  (List.perm_insertionSort cellLe l).mem_iff

theorem nodup_sortKeys {l : List Cell} (h : l.Nodup) : (sortKeys l).Nodup :=
  ((List.perm_insertionSort cellLe l).nodup_iff).mpr h

/-- Every group key emitted by `groupBySum` is one of the non-missing
observed values of the key column. -/
theorem groupBySum_key_mem {t : Table} {kc vc : String} {k : Cell} {v : Int}
    (h : (k, v) ∈ groupBySum t kc vc) :
    k ∈ (t.rows.map (fun r => getCell t.cols r kc)).filter (fun x => decide (x ≠ Cell.na)) := by
  unfold groupBySum at h
  obtain ⟨a, ha, hak⟩ := List.mem_map.mp h
  have : a = k := congrArg Prod.fst hak
  subst this
  exact mem_uniqueCells.mp (mem_sortKeys.mp ha)

theorem groupBySum_key_ne_na {t : Table} {kc vc : String} {k : Cell} {v : Int}
    (h : (k, v) ∈ groupBySum t kc vc) : k ≠ Cell.na := by
  have := groupBySum_key_mem h
  have := List.of_mem_filter this
  simpa using this

/-- The grand total of a grouped aggregate equals the amount-column sum
restricted to the rows whose group key is present (not missing): the
rows with a missing key are silently excluded. -/
theorem groupBySum_snd_sum (t : Table) (kc vc : String) :
    ((groupBySum t kc vc).map Prod.snd).sum =
      ((t.rows.filter (fun r => decide (getCell t.cols r kc ≠ Cell.na))).map
        (fun r => amtVal (getCell t.cols r vc))).sum := by
  unfold groupBySum
  rw [List.map_map]
  have hcomp : (Prod.snd ∘ fun k => (k, rowsGroupTotal t.cols kc vc t.rows k)) =
      fun k => rowsGroupTotal t.cols kc vc t.rows k := rfl
  rw [hcomp]
  set U := uniqueCells ((t.rows.map (fun r => getCell t.cols r kc)).filter
    (fun x => decide (x ≠ Cell.na))) with hU
  set rows' := t.rows.filter (fun r => decide (getCell t.cols r kc ≠ Cell.na)) with hrows'
  have hknd : (sortKeys U).Nodup := nodup_sortKeys (nodup_uniqueCells _)
  have hkne : ∀ k ∈ sortKeys U, k ≠ Cell.na := by
    intro k hk
    have := mem_uniqueCells.mp (mem_sortKeys.mp hk)
    have := List.of_mem_filter this
    simpa using this
  have hsame : ∀ k ∈ sortKeys U,
      rowsGroupTotal t.cols kc vc t.rows k = rowsGroupTotal t.cols kc vc rows' k := by
    intro k hk
    unfold rowsGroupTotal
    rw [hrows', List.filter_filter]
    have : ∀ r ∈ t.rows,
        (decide (getCell t.cols r kc = k) && decide (getCell t.cols r kc ≠ Cell.na)) =
          decide (getCell t.cols r kc = k) := by
      intro r _
      by_cases h : getCell t.cols r kc = k
      · simp [h, hkne k hk]
      · simp [h]
    rw [List.filter_congr this]
  have hall : ∀ r ∈ rows', getCell t.cols r kc ∈ sortKeys U := by
    intro r hr
    rw [hrows'] at hr
    have hmem := List.mem_of_mem_filter hr
    have hprop := List.of_mem_filter hr
    apply mem_sortKeys.mpr
    apply mem_uniqueCells.mpr
    apply List.mem_filter.mpr
    exact ⟨List.mem_map_of_mem _ hmem, hprop⟩
  calc ((sortKeys U).map (fun k => rowsGroupTotal t.cols kc vc t.rows k)).sum
      = ((sortKeys U).map (fun k => rowsGroupTotal t.cols kc vc rows' k)).sum := by
        exact congrArg _ (List.map_congr_left hsame)
    _ = (rows'.map (fun r => amtVal (getCell t.cols r vc))).sum :=
        sum_groupTotals t.cols kc vc (sortKeys U) hknd rows' hall

/-! ### Claims -/

/-- Claim C1, counterexample: on a table with no amount-keyword column
the metrics stage does NOT still report the row count — in `app.py` the
whole metrics block, `total_transactions` included, is nested under
`if sales_col:`, so every metric is omitted. -/
theorem claim_C1_counterexample :
    ¬ (findSalesCol noAmountTable.cols = none →
        (metricsStage noAmountTable).totalTransactions = some noAmountTable.rows.length) := by
  decide

/-- Claim C1, amended: for every table in which no column name matches
the amount keywords, the metrics stage omits ALL metrics — sum, mean,
row count and unique-product count alike — and produces no error. -/
theorem claim_C1_amended_all_metrics_omitted (t : Table)
    (h : findSalesCol t.cols = none) :
    metricsStage t = ⟨none, none, none, none⟩ := by
  unfold metricsStage
  rw [h]

theorem claim_C1_witness :
    metricsStage noAmountTable = ⟨none, none, none, none⟩ :=
  claim_C1_amended_all_metrics_omitted noAmountTable rfl

/-- Claim C3: schema inference assigns at most one column per role
(its result is an `Option` per role), depends only on the list of column
names (two tables with equal column lists get identical assignments),
and each role resolves to the first column in declared order whose name
matches that role's keywords, all earlier columns failing the match. -/
theorem claim_C3_schema_inference :
    (∀ t1 t2 : Table, t1.cols = t2.cols → schemaInference t1 = schemaInference t2)
    ∧ (∀ (t : Table) (c : String), findSalesCol t.cols = some c →
        isAmountName c = true ∧
          ∃ l1 l2, t.cols = l1 ++ c :: l2 ∧ ∀ x ∈ l1, isAmountName x = false)
    ∧ (∀ (t : Table) (c : String), findProductCol t.cols = some c →
        isCategoryName c = true ∧
          ∃ l1 l2, t.cols = l1 ++ c :: l2 ∧ ∀ x ∈ l1, isCategoryName x = false)
    ∧ (∀ (t : Table) (c : String), findDateCol t.cols = some c →
        isDateName c = true ∧
          ∃ l1 l2, t.cols = l1 ++ c :: l2 ∧ ∀ x ∈ l1, isDateName x = false) := by
  refine ⟨?_, ?_, ?_, ?_⟩
  · intro t1 t2 h
    unfold schemaInference
    rw [h]
  · intro t c h
    exact find?_first isAmountName t.cols c h
  · intro t c h
    exact find?_first isCategoryName t.cols c h
  · intro t c h
    rw [findDateCol, dateColumns, head?_filter] at h
    exact find?_first isDateName t.cols c h

theorem claim_C3_witness :
    schemaInference wTable = schemaInference wTableOtherRows ∧
      (isAmountName "Sales" = true ∧
        ∃ l1 l2, wTable.cols = l1 ++ "Sales" :: l2 ∧ ∀ x ∈ l1, isAmountName x = false) :=
  ⟨claim_C3_schema_inference.1 wTable wTableOtherRows rfl,
   claim_C3_schema_inference.2.1 wTable "Sales" rfl⟩

/-- Claim C2, counterexample: on a table whose category column contains a
missing value, the total-sales metric (5) differs from the sum of the
per-category totals (0): pandas `groupby` silently drops the NaN key
while `df[sales_col].sum()` keeps the row. -/
theorem claim_C2_counterexample :
    findSalesCol naCategoryTable.cols = some "Sales" ∧
      findProductCol naCategoryTable.cols = some "Product" ∧
      sumCol naCategoryTable "Sales" ≠
        ((groupBySum naCategoryTable "Product" "Sales").map Prod.snd).sum := by
  refine ⟨rfl, rfl, ?_⟩
  decide

/-- Claim C2, amended: on every filtered table with an amount column and
a category column in which no row has a missing category value, the
total-sales metric equals the sum of the per-category totals of the
Top-N aggregation before truncation. -/
theorem claim_C2_amended_sum_decomposition (t : Table) (sc pc : String)
    (_hsc : findSalesCol t.cols = some sc) (_hpc : findProductCol t.cols = some pc)
    (hna : ∀ r ∈ t.rows, getCell t.cols r pc ≠ Cell.na) :
    sumCol t sc = ((groupBySum t pc sc).map Prod.snd).sum := by
  rw [groupBySum_snd_sum]
  have hfull : t.rows.filter (fun r => decide (getCell t.cols r pc ≠ Cell.na)) = t.rows :=
    List.filter_eq_self.mpr (fun r hr => decide_eq_true (hna r hr))
  rw [hfull]
  rfl

theorem claim_C2_witness :
    sumCol wTable "Sales" = ((groupBySum wTable "Product" "Sales").map Prod.snd).sum :=
  claim_C2_amended_sum_decomposition wTable "Sales" "Product" rfl rfl (by decide)

/-- Claim C4: filtering with the full set of observed distinct values of
the chosen categorical column — or choosing no column at all — is the
identity transform on the table. -/
theorem claim_C4_identity_filter :
    (∀ t : Table, filterStage t none = t)
    ∧ (∀ (t : Table) (c : String), c ∈ t.cols →
        filterTable t c (uniqueValues t c) = t) := by
  constructor
  · intro t
    rfl
  · intro t c _
    cases t with
    | mk cols rows =>
      simp only [filterTable, uniqueValues, Table.mk.injEq, true_and]
      apply List.filter_eq_self.mpr
      intro r hr
      rw [decide_eq_true_eq]
      exact mem_uniqueCells.mpr (List.mem_map_of_mem _ hr)

theorem claim_C4_witness :
    filterTable wTable "Product" (uniqueValues wTable "Product") = wTable :=
  claim_C4_identity_filter.2 wTable "Product" (by decide)

/-- Claim C5: filtering is idempotent — applying the filter again with
the same column and permitted-value set changes nothing. -/
theorem claim_C5_filter_idempotent (t : Table) (c : String) (vs : List Cell) :
    filterTable (filterTable t c vs) c vs = filterTable t c vs := by
  simp only [filterTable, Table.mk.injEq, true_and]
  apply List.filter_eq_self.mpr
  intro r hr
  exact (List.mem_filter.mp hr).2

theorem filterTable_cols (t : Table) (c : String) (vs : List Cell) :
    (filterTable t c vs).cols = t.cols := rfl

/-- Claim C6: the Top-N aggregation returns at most N rows, and the N
produced by the slider widget is always within [5, 20] with default
value 10. -/
theorem claim_C6_topn_bounds :
    (∀ (t : Table) (pc sc : String) (n : Nat), (productSales t pc sc n).length ≤ n)
    ∧ (∀ n : Nat, 5 ≤ topNClamp n ∧ topNClamp n ≤ 20)
    ∧ topNClamp topNDefault = topNDefault := by
  refine ⟨?_, ?_, rfl⟩
  · intro t pc sc n
    rw [productSales, List.length_take]
    exact min_le_left _ _
  · intro n
    unfold topNClamp
    omega

/-- Claim C7: a remote load with an empty identifier string fails
immediately with the missing-identifier error, attempts no network
call, and no load path ever retries (at most one network call). -/
theorem claim_C7_empty_identifier (net : String → Except String Table) :
    remoteLoad net "" = (Except.error LoadError.missingIdentifier, 0)
    ∧ ∀ fid, (remoteLoad net fid).2 ≤ 1 := by
  constructor
  · rfl
  · intro fid
    unfold remoteLoad
    by_cases h : fid = ""
    · simp [h]
    · simp only [if_neg h]
      cases net fid <;> simp

/-- Claim C8: the treemap aggregate is the first 10 entries of the
grouped result in its original (grouped) order with no value sort,
while the share breakdown sorts descending by summed value before
truncating to 8 (so its output is pairwise descending). -/
theorem claim_C8_treemap_vs_pie (t : Table) (pc sc : String) :
    treemapData t pc sc = (groupBySum t pc sc).take 10
    ∧ groupBySum t pc sc = treemapData t pc sc ++ (groupBySum t pc sc).drop 10
    ∧ (treemapData t pc sc).length ≤ 10
    ∧ pieData t pc sc = (sortDescBySum (groupBySum t pc sc)).take 8
    ∧ (pieData t pc sc).length ≤ 8
    ∧ List.Pairwise bySumDesc (pieData t pc sc) := by
  refine ⟨rfl, (List.take_append_drop 10 _).symm, ?_, rfl, ?_, ?_⟩
  · rw [treemapData, List.length_take]
    exact min_le_left _ _
  · rw [pieData, List.length_take]
    exact min_le_left _ _
  · have hs : List.Pairwise bySumDesc (sortDescBySum (groupBySum t pc sc)) :=
      List.sorted_insertionSort bySumDesc (groupBySum t pc sc)
    exact List.Pairwise.sublist (List.take_sublist 8 _) hs

/-- Claim C9, counterexample: on a table with a categorical column but
no amount-keyword column, filtering with the empty permitted-value set
does yield an empty table, yet the downstream render errors anyway —
`app.py` line 173 reads `product_col`, which is only bound inside
`if sales_col:` (line 143), raising `NameError`.  So the claim as
stated (no downstream stage errors, for every Table) is false. -/
theorem claim_C9_counterexample :
    (filterTable noAmountTable "Region" []).rows = []
    ∧ renderDashboard (filterTable noAmountTable "Region" []) topNDefault =
        Except.error "NameError: name product_col is not defined" := by
  constructor
  · rfl
  · rfl

/-- Claim C9, amended: for every Table that has an amount-keyword
column and every chosen categorical column, filtering with an empty
permitted-value set yields an empty table, and the downstream metrics,
aggregation and export stages then all complete on it without erroring,
producing zero/empty outputs. -/
theorem claim_C9_amended_empty_selection (t : Table) (c sc : String) (n : Nat)
    (hsc : findSalesCol t.cols = some sc) :
    (filterTable t c []).rows = []
    ∧ (∃ out, renderDashboard (filterTable t c []) n = Except.ok out)
    ∧ (metricsStage (filterTable t c [])).totalSales = some 0
    ∧ (metricsStage (filterTable t c [])).totalTransactions = some 0
    ∧ (∀ kc vc, groupBySum (filterTable t c []) kc vc = [])
    ∧ exportCsv (filterTable t c []) = [String.intercalate "," t.cols] := by
  have hrows : (filterTable t c []).rows = [] := by
    simp [filterTable]
  refine ⟨hrows, ?_, ?_, ?_, ?_, ?_⟩
  · simp only [renderDashboard, filterTable_cols]
    rw [hsc]
    exact ⟨_, rfl⟩
  · simp [metricsStage, filterTable_cols, hsc, sumCol, hrows]
  · simp [metricsStage, filterTable_cols, hsc, hrows]
  · intro kc vc
    simp [groupBySum, hrows, sortKeys, uniqueCells, uniqAux]
  · simp [exportCsv, hrows, filterTable_cols]

theorem claim_C9_witness :
    (filterTable wTable "Product" []).rows = [] ∧
      ∃ out, renderDashboard (filterTable wTable "Product" []) topNDefault = Except.ok out :=
  ⟨(claim_C9_amended_empty_selection wTable "Product" "Sales" topNDefault rfl).1,
   (claim_C9_amended_empty_selection wTable "Product" "Sales" topNDefault rfl).2.1⟩

/-- Claim C10: every grouped aggregate emits only non-missing group
keys, its grand total is the amount sum over exactly the rows whose key
is present (missing keys excluded), and on a concrete table whose date
column has a value the coercion step turned into missing, the time
series total is strictly less than the total-sales metric. -/
theorem claim_C10_missing_keys_excluded :
    (∀ (t : Table) (kc vc : String) (k : Cell) (v : Int),
        (k, v) ∈ groupBySum t kc vc → k ≠ Cell.na)
    ∧ (∀ (t : Table) (kc vc : String),
        ((groupBySum t kc vc).map Prod.snd).sum =
          ((t.rows.filter (fun r => decide (getCell t.cols r kc ≠ Cell.na))).map
            (fun r => amtVal (getCell t.cols r vc))).sum)
    ∧ ((trendDf coercedDateTable "Date" "Sales").map Prod.snd).sum <
        sumCol coercedDateTable "Sales" := by
  refine ⟨?_, ?_, ?_⟩
  · intro t kc vc k v h
    exact groupBySum_key_ne_na h
  · intro t kc vc
    exact groupBySum_snd_sum t kc vc
  · decide

theorem claim_C10_witness : Cell.str "A" ≠ Cell.na :=
  claim_C10_missing_keys_excluded.1 wTable "Product" "Sales" (Cell.str "A") 7 (by decide)
